import Mathlib

/-!
Verification development for the AeyeWire MCP service (Go sources).

The Go sources are shallowly embedded: `LanguageType` and `SeverityLevel`
are Go `string` types and are modelled as `String`; machine integers that
occur (line/column numbers) are modelled as `Int`; fallible operations
return `Except`/`Option`.  Go's regexps used by the language detector are
embedded as an explicit regular-expression datatype with a Brzozowski
derivative matcher.  Go map iteration order is adversarial, so every
function that iterates a map takes the iteration order as an explicit
parameter.  The external LLM backend and the per-language rule-prompt
catalogue (explicitly out of scope in the specification) are parameters of
the pipeline.
-/

/-- The backtick character (written via its code point to keep string
literals simple). -/
def btick : Char := Char.ofNat 96

/-- The left brace character. -/
def lbraceC : Char := Char.ofNat 123

/-- The right brace character. -/
def rbraceC : Char := Char.ofNat 125

/-- Go RE2 `\s` character class: `[\t\n\f\r ]`. -/
def rws : Char → Bool := fun c => c == ' ' || c == '\t' || c == '\n' || c == '\x0c' || c == '\r'

/-- Go RE2 `\w` character class: `[0-9A-Za-z_]`. -/
def rword : Char → Bool := fun c => (c.isAlpha && c.toNat < 128) || c.isDigit || c == '_'

/-- Lower-case ASCII letter, the `[a-z]` class. -/
def rlower : Char → Bool := fun c => 97 ≤ c.toNat && c.toNat ≤ 122

/-- The `[a-z0-9_.]` class from the Java `package` pattern. -/
def rjavaPkg : Char → Bool := fun c => rlower c || c.isDigit || c == '_' || c == '.'

/-- RE2 `.`: any character except newline. -/
def rdot : Char → Bool := fun c => !(c == '\n')

/-- The `['"]` class. -/
def rquote : Char → Bool := fun c => c.toNat == 39 || c == '"'

/-- The `[^>]` class. -/
def rnotGt : Char → Bool := fun c => !(c == '>')

/-- Any character at all (`[\s\S]`). -/
def ranyChar : Char → Bool := fun _ => true

/-- Regular expressions as used by the Go language detector.  Stars only
ever occur over single character classes in the source patterns, which the
datatype reflects (`starC`). -/
inductive Rgx where
  | emp
  | eps
  | cls (p : Char → Bool)
  | cat (r1 r2 : Rgx)
  | alt (r1 r2 : Rgx)
  | starC (p : Char → Bool)

/-- Whether a regular expression accepts the empty string. -/
def Rgx.nullable : Rgx → Bool
  | .emp => false
  | .eps => true
  | .cls _ => false
  | .cat r1 r2 => r1.nullable && r2.nullable
  | .alt r1 r2 => r1.nullable || r2.nullable
  | .starC _ => true

/-- Brzozowski derivative of a regular expression by a character. -/
def Rgx.deriv (c : Char) : Rgx → Rgx
  | .emp => .emp
  | .eps => .emp
  | .cls p => if p c then .eps else .emp
  | .cat r1 r2 =>
    if r1.nullable then .alt (.cat (r1.deriv c) r2) (r2.deriv c)
    else .cat (r1.deriv c) r2
  | .alt r1 r2 => .alt (r1.deriv c) (r2.deriv c)
  | .starC p => if p c then .starC p else .emp

/-- Full-string match by iterated derivatives. -/
def Rgx.rmatch : Rgx → List Char → Bool
  | r, [] => r.nullable
  | r, c :: rest => (r.deriv c).rmatch rest

/-- Go `regexp.MatchString`: the pattern matches somewhere inside the
string, i.e. `[\s\S]*` ++ pattern ++ `[\s\S]*` matches the whole string. -/
def Rgx.matchString (r : Rgx) (s : String) : Bool :=
  Rgx.rmatch (.cat (.starC ranyChar) (.cat r (.starC ranyChar))) s.data

/-- A single-character literal. -/
def rchr (c : Char) : Rgx := .cls (fun d => d == c)

/-- A string literal regex. -/
def rlit (s : String) : Rgx := s.data.foldr (fun c r => Rgx.cat (rchr c) r) .eps

/-- Repetition `p+` for a character class. -/
def rplus (p : Char → Bool) : Rgx := .cat (.cls p) (.starC p)

/-- Option `r?`. -/
def ropt (r : Rgx) : Rgx := .alt .eps r

/-- n-ary alternation. -/
def raltList : List Rgx → Rgx
  | [] => .emp
  | [r] => r
  | r :: rest => .alt r (raltList rest)

/-- Java signature patterns from `initializePatterns`. -/
def javaPatterns : List Rgx :=
  [ .cat (rlit "package") (.cat (rplus rws) (.cat (.cls rlower) (.cat (.starC rjavaPkg) (rchr ';')))),
    .cat (rlit "import") (.cat (rplus rws) (.cat (raltList [rlit "java", rlit "javax", rlit "org"]) (rchr '.'))),
    .cat (rlit "public") (.cat (rplus rws) (.cat (raltList [rlit "class", rlit "interface", rlit "enum"]) (.cat (rplus rws) (rplus rword)))),
    .cat (rchr '@') (raltList [rlit "Override", rlit "Autowired", rlit "Entity", rlit "Controller", rlit "Service", rlit "Repository"]),
    .cat (raltList [rlit "public", rlit "private", rlit "protected"]) (.cat (rplus rws) (.cat (ropt (.cat (rlit "static") (rplus rws))) (raltList [rlit "void", rlit "int", rlit "String", rlit "boolean"]))) ]

/-- C# signature patterns from `initializePatterns`. -/
def csharpPatterns : List Rgx :=
  [ .cat (rlit "using") (.cat (rplus rws) (rlit "System")),
    .cat (rlit "namespace") (.cat (rplus rws) (rplus rword)),
    .cat (raltList [rlit "public", rlit "private", rlit "protected"]) (.cat (rplus rws) (.cat (raltList [rlit "class", rlit "interface", rlit "struct"]) (.cat (rplus rws) (rplus rword)))),
    .cat (rchr '[') (.cat (rlit "assembly:") (.cat (.starC rws) (rplus rword))),
    .cat (ropt (.cat (rlit "async") (rplus rws))) (rlit "Task<") ]

/-- The shared `import ... from 'react'` pattern. -/
def importReactPattern : Rgx :=
  .cat (rlit "import") (.cat (rplus rws) (.cat (.starC rdot) (.cat (rlit "from") (.cat (rplus rws) (.cat (.cls rquote) (.cat (rlit "react") (.cls rquote)))))))

/-- The shared JSX tag pattern `<\w+[^>]*>`. -/
def jsxTagPattern : Rgx :=
  .cat (rchr '<') (.cat (rplus rword) (.cat (.starC rnotGt) (rchr '>')))

/-- React TypeScript signature patterns from `initializePatterns`. -/
def reactTsPatterns : List Rgx :=
  [ importReactPattern,
    .cat (rlit "interface") (.cat (rplus rws) (.cat (rplus rword) (.cat (.starC rws) (rchr lbraceC)))),
    .cat (rlit "type") (.cat (rplus rws) (.cat (rplus rword) (.cat (.starC rws) (rchr '=')))),
    .cat (rchr ':') (.cat (.starC rws) (.cat (ropt (rlit "React.")) (rlit "FC<"))),
    jsxTagPattern ]

/-- React JavaScript signature patterns from `initializePatterns`. -/
def reactJsPatterns : List Rgx :=
  [ importReactPattern,
    rlit "React.createElement",
    raltList [rlit "useState", rlit "useEffect", rlit "useCallback", rlit "useMemo"],
    jsxTagPattern,
    .cat (rlit "export") (.cat (rplus rws) (.cat (ropt (.cat (rlit "default") (rplus rws))) (.cat (.alt (rlit "function") (rlit "const")) (.cat (rplus rws) (rplus rword))))) ]

/-- The detector's pattern table (`ld.patterns`), keyed by the language
tag; tags are Go strings. -/
def patternsOf (lang : String) : List Rgx :=
  if lang == "java" then javaPatterns
  else if lang == "csharp" then csharpPatterns
  else if lang == "react_typescript" then reactTsPatterns
  else if lang == "react_javascript" then reactJsPatterns
  else []

/-- Number of signature patterns of `lang` that match `code` (the value
accumulated in the Go `scores` map). -/
def scoreOf (lang : String) (code : String) : Nat :=
  (patternsOf lang).countP (fun r => r.matchString code)

/-- The maximum-selection loop of `DetectFromContent`: iterate the scores
in the given order, keeping the first strict improvement. -/
def detectLoop (code : String) : List String → String → Nat → String
  | [], best, _ => best
  | l :: rest, best, maxScore =>
    if scoreOf l code > maxScore then detectLoop code rest l (scoreOf l code)
    else detectLoop code rest best maxScore

/-- The model of `DetectFromContent`.  `ord` is the iteration order of the Go `scores`
map, which Go randomizes; it is passed explicitly. -/
def detectFromContent (ord : List String) (code : String) : String :=
  detectLoop code ord "unknown" 0

/-- Go `filepath.Ext`: scan the path backwards; stop at a path separator;
return the suffix from the last dot (dot included), or the empty string. -/
def extRevScan : List Char → List Char → Option (List Char)
  | _, [] => none
  | acc, c :: rest =>
    if c == '/' then none
    else if c == '.' then some ('.' :: acc)
    else extRevScan (c :: acc) rest

/-- Go `filepath.Ext` on strings. -/
def filepathExt (p : String) : String :=
  match extRevScan [] p.data.reverse with
  | some e => String.mk e
  | none => ""

/-- Go `strings.ToLower` (ASCII case mapping suffices for the extension
table). -/
def toLowerStr (s : String) : String := String.mk (s.data.map Char.toLower)

/-- The fixed extension table of `DetectFromExtension`. -/
def extTable (ext : String) : String :=
  if ext == ".java" then "java"
  else if ext == ".cs" then "csharp"
  else if ext == ".tsx" then "react_typescript"
  else if ext == ".ts" then "react_typescript"
  else if ext == ".jsx" then "react_javascript"
  else if ext == ".js" then "react_javascript"
  else "unknown"

/-- The model of `DetectFromExtension`. -/
def detectFromExtension (filePath : String) : String :=
  if filePath == "" then "unknown"
  else extTable (toLowerStr (filepathExt filePath))

/-- Extensions whose mapped tag triggers the content-agreement check in
`Detect` (the react tags, i.e. the ambiguous extensions). -/
def ambiguousExt (filePath : String) : Bool :=
  detectFromExtension filePath == "react_typescript" ||
    detectFromExtension filePath == "react_javascript"

/-- The model of `Detect`: extension stage first, with the content-agreement check for
react tags, falling back to the content stage.  `ord` is the scores-map
iteration order used by the content stage. -/
def detect (ord : List String) (code filePath : String) : String :=
  if filePath != "" then
    let lang := detectFromExtension filePath
    if lang != "unknown" then
      if lang == "react_typescript" || lang == "react_javascript" then
        let contentLang := detectFromContent ord code
        if contentLang == lang then lang
        else detectFromContent ord code
      else lang
    else detectFromContent ord code
  else detectFromContent ord code

/-- Suffix after the first `*/`, if any. -/
def findCloseSB : List Char → Option (List Char)
  | '*' :: '/' :: rest => some rest
  | _ :: rest => findCloseSB rest
  | [] => none

/-- Block-comment removal, the model of Go's
`regexp.MustCompile("/\\*[\\s\\S]*?\\*/").ReplaceAllString(code, "")`.
Leftmost-shortest matching: on a comment opener, drop through the first
closer and continue after it; an opener with no closer anywhere matches
nothing and is kept verbatim.  The fuel argument is initialized to the
input length, which bounds the number of steps. -/
def sbGo : Nat → List Char → List Char
  | 0, l => l
  | fuel + 1, l =>
    match l with
    | '/' :: '*' :: rest =>
      match findCloseSB rest with
      | some rest' => sbGo fuel rest'
      | none => '/' :: '*' :: rest
    | c :: rest => c :: sbGo fuel rest
    | [] => []

/-- Line-comment removal, the model of Go's
`regexp.MustCompile("//.*").ReplaceAllString(code, "")`; `.` does not
match a newline, so every newline survives this pass. -/
def slGo : Nat → List Char → List Char
  | 0, l => l
  | fuel + 1, l =>
    match l with
    | '/' :: '/' :: rest => slGo fuel (rest.dropWhile (fun c => !(c == '\n')))
    | c :: rest => c :: slGo fuel rest
    | [] => []

/-- The model of `removeComments`: multi-line comments first, then single-line. -/
def removeComments (code : String) : String :=
  String.mk (slGo code.length (sbGo code.length code.data))

/-- The model of `PreprocessCode`: strip comments for the four comment-bearing
languages, pass every other language through unchanged. -/
def preprocessCode (language code : String) : String :=
  if language == "java" || language == "csharp" ||
      language == "react_typescript" || language == "react_javascript" then
    removeComments code
  else code

/-- Number of newline characters in a string. -/
def newlineCount (s : String) : Nat := s.data.count '\n'

/-- JSON values; numbers are modelled as integers (the findings schema
only uses integral fields, and the model's parser conservatively rejects
fractional or exponent forms). -/
inductive Json where
  | null
  | bool (b : Bool)
  | num (n : Int)
  | str (s : String)
  | arr (xs : List Json)
  | obj (fields : List (String × Json))

/-- JSON whitespace. -/
def jsonWs (c : Char) : Bool := c == ' ' || c == '\t' || c == '\n' || c == '\r'

/-- Skip JSON whitespace. -/
def skipWs (l : List Char) : List Char := l.dropWhile jsonWs

/-- One hexadecimal digit. -/
def hexDigit (c : Char) : Option Nat :=
  if c.isDigit then some (c.toNat - 48)
  else if 97 ≤ c.toNat && c.toNat ≤ 102 then some (c.toNat - 87)
  else if 65 ≤ c.toNat && c.toNat ≤ 70 then some (c.toNat - 55)
  else none

/-- JSON string-literal body (after the opening quote): accumulate until
the closing quote, handling the escape forms; `\uXXXX` is decoded for
non-surrogate code points (surrogate pairs are outside the model). -/
def pStrBody : List Char → List Char → Option (String × List Char)
  | _, [] => none
  | acc, c :: r =>
    if c == '"' then some (String.mk acc.reverse, r)
    else if c == '\\' then
      match r with
      | [] => none
      | e :: r2 =>
        if e == '"' then pStrBody ('"' :: acc) r2
        else if e == '\\' then pStrBody ('\\' :: acc) r2
        else if e == '/' then pStrBody ('/' :: acc) r2
        else if e == 'b' then pStrBody ('\x08' :: acc) r2
        else if e == 'f' then pStrBody ('\x0c' :: acc) r2
        else if e == 'n' then pStrBody ('\n' :: acc) r2
        else if e == 'r' then pStrBody ('\r' :: acc) r2
        else if e == 't' then pStrBody ('\t' :: acc) r2
        else if e == 'u' then
          match r2 with
          | h1 :: h2 :: h3 :: h4 :: r3 =>
            match hexDigit h1, hexDigit h2, hexDigit h3, hexDigit h4 with
            | some a, some b, some c2, some d =>
              let v := ((a * 16 + b) * 16 + c2) * 16 + d
              if v < 0xd800 || 0xe000 ≤ v then pStrBody (Char.ofNat v :: acc) r3
              else none
            | _, _, _, _ => none
          | _ => none
        else none
    else pStrBody (c :: acc) r

/-- JSON number: optional sign, digit run without a leading zero; a
following `.`/`e` is rejected (integral model). -/
def pNum (l : List Char) : Option (Int × List Char) :=
  let (neg, l1) := match l with
    | '-' :: r => (true, r)
    | _ => (false, l)
  let digits := l1.takeWhile Char.isDigit
  let rest := l1.dropWhile Char.isDigit
  if digits.isEmpty then none
  else if digits.length > 1 && digits.headI = '0' then none
  else match rest with
    | '.' :: _ => none
    | 'e' :: _ => none
    | 'E' :: _ => none
    | _ =>
      let n : Nat := digits.foldl (fun acc c => acc * 10 + (c.toNat - 48)) 0
      some (if neg then -(n : Int) else (n : Int), rest)

mutual
/-- JSON value parser (fuel-driven); expects no leading whitespace. -/
def pVal : Nat → List Char → Option (Json × List Char)
  | 0, _ => none
  | fuel + 1, l =>
    match l with
    | [] => none
    | c :: rest =>
      if c == 'n' then
        match rest with
        | 'u' :: 'l' :: 'l' :: r => some (.null, r)
        | _ => none
      else if c == 't' then
        match rest with
        | 'r' :: 'u' :: 'e' :: r => some (.bool true, r)
        | _ => none
      else if c == 'f' then
        match rest with
        | 'a' :: 'l' :: 's' :: 'e' :: r => some (.bool false, r)
        | _ => none
      else if c == '"' then
        match pStrBody [] rest with
        | some (s, r) => some (.str s, r)
        | none => none
      else if c == '[' then pArr fuel (skipWs rest)
      else if c == lbraceC then pObj fuel (skipWs rest)
      else if c == '-' || c.isDigit then
        match pNum l with
        | some (n, r) => some (.num n, r)
        | none => none
      else none

/-- JSON array elements (after `[` and whitespace). -/
def pArr : Nat → List Char → Option (Json × List Char)
  | 0, _ => none
  | fuel + 1, l =>
    match l with
    | ']' :: r => some (.arr [], r)
    | _ =>
      match pVal fuel l with
      | some (v, r) => pArrRest fuel [v] (skipWs r)
      | none => none

/-- Remaining JSON array elements. -/
def pArrRest : Nat → List Json → List Char → Option (Json × List Char)
  | 0, _, _ => none
  | fuel + 1, acc, l =>
    match l with
    | ',' :: r =>
      match pVal fuel (skipWs r) with
      | some (v, r2) => pArrRest fuel (acc ++ [v]) (skipWs r2)
      | none => none
    | ']' :: r => some (.arr acc, r)
    | _ => none

/-- JSON object members (after the opening brace and whitespace). -/
def pObj : Nat → List Char → Option (Json × List Char)
  | 0, _ => none
  | fuel + 1, l =>
    if l.headI == rbraceC && !l.isEmpty then some (.obj [], l.tail)
    else
      match pMember fuel l with
      | some (kv, r) => pObjRest fuel [kv] (skipWs r)
      | none => none

/-- One `"key": value` member. -/
def pMember : Nat → List Char → Option ((String × Json) × List Char)
  | 0, _ => none
  | fuel + 1, l =>
    match l with
    | '"' :: r =>
      match pStrBody [] r with
      | some (k, r2) =>
        match skipWs r2 with
        | ':' :: r3 =>
          match pVal fuel (skipWs r3) with
          | some (v, r4) => some ((k, v), r4)
          | none => none
        | _ => none
      | none => none
    | _ => none

/-- Remaining JSON object members. -/
def pObjRest : Nat → List (String × Json) → List Char → Option (Json × List Char)
  | 0, _, _ => none
  | fuel + 1, acc, l =>
    if l.headI == rbraceC && !l.isEmpty then some (.obj acc, l.tail)
    else
      match l with
      | ',' :: r =>
        match pMember fuel (skipWs r) with
        | some (kv, r2) => pObjRest fuel (acc ++ [kv]) (skipWs r2)
        | none => none
      | _ => none
end

/-- Parse a complete JSON document (surrounding whitespace allowed), the
model of the parsing step of Go's `json.Unmarshal`. -/
def parseJson (s : String) : Option Json :=
  match pVal (2 * s.length + 8) (skipWs s.data) with
  | some (v, rest) => if (skipWs rest).isEmpty then some v else none
  | none => none

/-- Go `strings.TrimSpace` whitespace (the ASCII part of Unicode space). -/
def trimWs (c : Char) : Bool :=
  c == ' ' || c == '\t' || c == '\n' || c == '\x0b' || c == '\x0c' || c == '\r'

/-- Go `strings.TrimSpace` on character lists. -/
def trimSpaceL (l : List Char) : List Char :=
  ((l.dropWhile trimWs).reverse.dropWhile trimWs).reverse

/-- Whether the first three characters are exactly three backticks (the
start of a fenced code block). -/
def startsFence : List Char → Bool
  | a :: b :: c :: _ => a == btick && b == btick && c == btick
  | _ => false

/-- Suffix after the first triple-backtick fence, if any. -/
def afterTriple : List Char → Option (List Char)
  | [] => none
  | c :: rest =>
    if startsFence (c :: rest) then some (rest.drop 2) else afterTriple rest

/-- Whether the text contains a triple-backtick fence. -/
def hasFence (l : List Char) : Bool := (afterTriple l).isSome

/-- Characters before the next triple-backtick fence, or `none` when no
fence follows (the lazy group `([\s\S]*?)` of the code-block regex). -/
def untilTriple : List Char → Option (List Char)
  | [] => none
  | c :: rest =>
    if startsFence (c :: rest) then some []
    else (untilTriple rest).map (c :: ·)

/-- Drop a literal `json` tag, the `(?:json)?` part of the code-block
regex. -/
def dropJsonTag : List Char → List Char
  | 'j' :: 's' :: 'o' :: 'n' :: rest => rest
  | l => l

/-- The capture group of Go's
`regexp.MustCompile("\x60\x60\x60(?:json)?\\s*([\\s\\S]*?)\x60\x60\x60")`
applied to the text: after the first fence, an optional `json` tag and
greedy whitespace are skipped, and the group runs lazily up to the next
fence; if no closing fence exists the regex does not match. -/
def codeBlockGroup (l : List Char) : Option (List Char) :=
  match afterTriple l with
  | some r => untilTriple ((dropJsonTag r).dropWhile rws)
  | none => none

/-- Last occurrence split: the characters strictly before the last
occurrence of `ch`, or `none` when `ch` does not occur. -/
def takeToLast (ch : Char) (l : List Char) : Option (List Char) :=
  match l.reverse.dropWhile (fun c => !(c == ch)) with
  | [] => none
  | _ :: restRev => some restRev.reverse

/-- The match of Go's bracket-scan regex `(\[[\s\S]*\]|\{[\s\S]*\})`:
the leftmost `[` (resp. left brace) that has a matching closing character
anywhere later, greedy to the last such closer. -/
def jsonScan : List Char → Option (List Char)
  | [] => none
  | c :: rest =>
    if c == '[' then
      match takeToLast ']' rest with
      | some body => some ('[' :: (body ++ [']']))
      | none => jsonScan rest
    else if c == lbraceC then
      match takeToLast rbraceC rest with
      | some body => some (lbraceC :: (body ++ [rbraceC]))
      | none => jsonScan rest
    else jsonScan rest

/-- The model of `extractJSON` on character lists: first the fenced code block, then
the bracket scan, else the raw text. -/
def extractJSONL (l : List Char) : List Char :=
  match codeBlockGroup l with
  | some g => trimSpaceL g
  | none =>
    match jsonScan l with
    | some m => trimSpaceL m
    | none => l

/-- The model of `extractJSON`. -/
def extractJSON (s : String) : String := String.mk (extractJSONL s.data)

/-- The model of `models.SecurityIssue`.  `Severity` is a Go string type and is
modelled as `String`; line/column numbers are Go `int`, modelled as
`Int`. -/
structure SecurityIssue where
  id : String := ""
  title : String := ""
  description : String := ""
  severity : String := ""
  lineNumber : Int := 0
  columnNumber : Int := 0
  filePath : String := ""
  codeSnippet : String := ""
  remediation : String := ""
  references : List String := []
deriving DecidableEq

/-- The zero value of `SecurityIssue`. -/
def zeroIssue : SecurityIssue := {}

/-- ASCII lower-casing of a string, the model of Go's case-insensitive
JSON field-name match. -/
def lowerKey (s : String) : String := String.mk (s.data.map Char.toLower)

/-- Decoding a JSON value into a Go `string` field: a JSON string sets
the field, `null` leaves it unchanged, anything else is a type error. -/
def setStrField (cur : String) (v : Json) : Except String String :=
  match v with
  | .str s => .ok s
  | .null => .ok cur
  | _ => .error "cannot unmarshal value into string field"

/-- Decoding a JSON value into a Go `int` field. -/
def setIntField (cur : Int) (v : Json) : Except String Int :=
  match v with
  | .num n => .ok n
  | .null => .ok cur
  | _ => .error "cannot unmarshal value into int field"

/-- Decoding a JSON value into a Go `[]string` field. -/
def setStrListField (cur : List String) (v : Json) : Except String (List String) :=
  match v with
  | .null => .ok cur
  | .arr xs =>
    xs.foldl
      (fun acc x =>
        match acc, x with
        | .ok l, .str s => .ok (l ++ [s])
        | .ok l, .null => .ok (l ++ [""])
        | .ok _, _ => .error "cannot unmarshal element into string"
        | .error e, _ => .error e)
      (.ok [])
  | _ => .error "cannot unmarshal value into string slice"

/-- Applying one JSON object member to a `SecurityIssue` being decoded
(Go assigns fields in member order; field names match the json tags,
case-insensitively; unknown keys are ignored). -/
def applyIssueField (i : SecurityIssue) (k : String) (v : Json) : Except String SecurityIssue :=
  let key := lowerKey k
  if key == "id" then (setStrField i.id v).map (fun s => { i with id := s })
  else if key == "title" then (setStrField i.title v).map (fun s => { i with title := s })
  else if key == "description" then (setStrField i.description v).map (fun s => { i with description := s })
  else if key == "severity" then (setStrField i.severity v).map (fun s => { i with severity := s })
  else if key == "line_number" then (setIntField i.lineNumber v).map (fun n => { i with lineNumber := n })
  else if key == "column_number" then (setIntField i.columnNumber v).map (fun n => { i with columnNumber := n })
  else if key == "file_path" then (setStrField i.filePath v).map (fun s => { i with filePath := s })
  else if key == "code_snippet" then (setStrField i.codeSnippet v).map (fun s => { i with codeSnippet := s })
  else if key == "remediation" then (setStrField i.remediation v).map (fun s => { i with remediation := s })
  else if key == "references" then (setStrListField i.references v).map (fun l => { i with references := l })
  else .ok i

/-- Decoding a JSON value into a `SecurityIssue`. -/
def decodeIssue (v : Json) : Except String SecurityIssue :=
  match v with
  | .null => .ok zeroIssue
  | .obj fields =>
    fields.foldl
      (fun acc kv =>
        match acc with
        | .ok i => applyIssueField i kv.1 kv.2
        | .error e => .error e)
      (.ok zeroIssue)
  | _ => .error "cannot unmarshal value into SecurityIssue"

/-- Decoding a JSON value into `[]models.SecurityIssue` (the first
`json.Unmarshal` attempt): `null` yields the nil slice, an array decodes
element-wise, anything else is a type error. -/
def unmarshalIssueList (v : Json) : Except String (List SecurityIssue) :=
  match v with
  | .null => .ok []
  | .arr xs =>
    xs.foldl
      (fun acc x =>
        match acc with
        | .ok l => match decodeIssue x with
          | .ok i => .ok (l ++ [i])
          | .error e => .error e
        | .error e => .error e)
      (.ok [])
  | _ => .error "cannot unmarshal value into issue slice"

/-- One member step in decoding the wrapper struct: a member whose key
matches the `issues` tag (case-insensitively) sets the field, every other
key is ignored. -/
def wrapperStep (acc : Except String (List SecurityIssue)) (kv : String × Json) :
    Except String (List SecurityIssue) :=
  match acc with
  | .ok l =>
    if lowerKey kv.1 == "issues" then unmarshalIssueList kv.2
    else .ok l
  | .error e => .error e

/-- Decoding a JSON value into the wrapper struct with the single
`issues` field (the second `json.Unmarshal` attempt); keys other than
`issues` are ignored. -/
def unmarshalWrapper (v : Json) : Except String (List SecurityIssue) :=
  match v with
  | .null => .ok []
  | .obj fields => fields.foldl wrapperStep (.ok [])
  | _ => .error "cannot unmarshal value into wrapper"

/-- Go `json.Unmarshal(jsonStr, &issues)` with `issues []SecurityIssue`. -/
def unmarshalIssuesText (s : String) : Except String (List SecurityIssue) :=
  match parseJson s with
  | some v => unmarshalIssueList v
  | none => .error "invalid JSON"

/-- Go `json.Unmarshal(jsonStr, &wrapper)`. -/
def unmarshalWrapperText (s : String) : Except String (List SecurityIssue) :=
  match parseJson s with
  | some v => unmarshalWrapper v
  | none => .error "invalid JSON"

/-- The enrichment loop of `parseIssuesFromResponse`: empty file paths
are filled from the request, empty identifiers get `ISSUE-<position>`. -/
def enrichIssues (issues : List SecurityIssue) (filePath : String) : List SecurityIssue :=
  issues.mapIdx (fun idx i =>
    let i1 := if i.filePath == "" then { i with filePath := filePath } else i
    if i1.id == "" then { i1 with id := "ISSUE-" ++ toString (idx + 1) } else i1)

/-- The model of `parseIssuesFromResponse`: extract, decode as an array, retry as the
wrapper object, enrich; both failing yields the parse error. -/
def parseIssuesFromResponse (response filePath : String) : Except String (List SecurityIssue) :=
  let jsonStr := extractJSON response
  match unmarshalIssuesText jsonStr with
  | .ok issues => .ok (enrichIssues issues filePath)
  | .error e =>
    match unmarshalWrapperText jsonStr with
    | .ok issues => .ok (enrichIssues issues filePath)
    | .error _ => .error ("failed to parse issues: " ++ e)

/-- The model of `models.AnalysisMetadata`. -/
structure AnalysisMetadata where
  analysisTime : String
  issuesFound : Nat
  criticalCount : Nat
  highCount : Nat
  mediumCount : Nat
  lowCount : Nat
  detectedLanguage : String
  errors : List String := []
deriving DecidableEq

/-- The per-issue counting step of `generateMetadata`'s loop. -/
def bumpSeverity (m : AnalysisMetadata) (i : SecurityIssue) : AnalysisMetadata :=
  if i.severity == "CRITICAL" then { m with criticalCount := m.criticalCount + 1 }
  else if i.severity == "HIGH" then { m with highCount := m.highCount + 1 }
  else if i.severity == "MEDIUM" then { m with mediumCount := m.mediumCount + 1 }
  else if i.severity == "LOW" then { m with lowCount := m.lowCount + 1 }
  else m

/-- The model of `generateMetadata`; the elapsed duration string is a parameter (real
time is outside the model). -/
def generateMetadata (issues : List SecurityIssue) (language elapsed : String) : AnalysisMetadata :=
  issues.foldl bumpSeverity
    { analysisTime := elapsed, issuesFound := issues.length,
      criticalCount := 0, highCount := 0, mediumCount := 0, lowCount := 0,
      detectedLanguage := language }

/-- Whether a severity string is one of the four known levels. -/
def knownSeverity (s : String) : Bool :=
  s == "CRITICAL" || s == "HIGH" || s == "MEDIUM" || s == "LOW"

/-- The model of `generateSummary`. -/
def generateSummary (issues : List SecurityIssue) : String :=
  if issues.length == 0 then "No security issues detected."
  else
    let critical := issues.countP (fun i => i.severity == "CRITICAL")
    let high := issues.countP (fun i => i.severity == "HIGH")
    let medium := issues.countP (fun i => i.severity == "MEDIUM")
    let low := issues.countP (fun i => i.severity == "LOW")
    "Found " ++ toString issues.length ++ " security issue(s): " ++
      toString critical ++ " critical, " ++ toString high ++ " high, " ++
      toString medium ++ " medium, " ++ toString low ++ " low."

/-- The model of `models.AnalysisResult`. -/
structure AnalysisResult where
  language : String
  issues : List SecurityIssue
  summary : String
  analysisMetadata : AnalysisMetadata
deriving DecidableEq

/-- The model of `writeIssue`: the markdown rendering of a single issue. -/
def writeIssue (issue : SecurityIssue) : String :=
  "### " ++ issue.title ++ "\n\n" ++
  "**Severity**: " ++ issue.severity ++ "\n\n" ++
  "**Description**: " ++ issue.description ++ "\n\n" ++
  (if issue.lineNumber > 0 then
    "**Location**: Line " ++ toString issue.lineNumber ++
      (if issue.columnNumber > 0 then ", Column " ++ toString issue.columnNumber else "") ++
      "\n\n"
  else "") ++
  (if issue.codeSnippet != "" then
    "**Code Snippet**:\n```\n" ++ issue.codeSnippet ++ "\n```\n\n"
  else "") ++
  (if issue.remediation != "" then "**Remediation**: " ++ issue.remediation ++ "\n\n" else "") ++
  (if issue.references.length > 0 then
    "**References**:\n" ++ String.join (issue.references.map (fun r => "- " ++ r ++ "\n")) ++ "\n"
  else "") ++
  "---\n\n"

/-- The fixed heading block that `FormatAsMarkdown` always writes before
any findings (title, language, analysis time, summary). -/
def reportPreamble (result : AnalysisResult) : String :=
  "# Security Analysis Report\n\n" ++
  "**Language**: " ++ result.language ++ "\n\n" ++
  "**Analysis Time**: " ++ result.analysisMetadata.analysisTime ++ "\n\n" ++
  "## Summary\n\n" ++ result.summary ++ "\n\n"

/-- A per-severity section: header plus issues, or empty when no issue
has that severity. -/
def severitySection (header : String) (issues : List SecurityIssue) : String :=
  if issues.length > 0 then header ++ String.join (issues.map writeIssue) else ""

/-- The model of `FormatAsMarkdown`. -/
def formatAsMarkdown (result : AnalysisResult) : String :=
  reportPreamble result ++
  (if result.issues.length == 0 then "No security issues found.\n"
   else
    severitySection "## Critical Issues\n\n" (result.issues.filter (fun i => i.severity == "CRITICAL")) ++
    severitySection "## High Severity Issues\n\n" (result.issues.filter (fun i => i.severity == "HIGH")) ++
    severitySection "## Medium Severity Issues\n\n" (result.issues.filter (fun i => i.severity == "MEDIUM")) ++
    severitySection "## Low Severity Issues\n\n" (result.issues.filter (fun i => i.severity == "LOW")))

/-- The model of `AnalyzeWithLLM`.  The outbound LLM call is the function parameter
`backend` (preprocessed code and prompt to raw reply); the elapsed-time
string is a parameter for the same reason as in `generateMetadata`. -/
def analyzeWithLLM (backend : String → String → Except String String)
    (language code filePath prompt elapsed : String) : Except String AnalysisResult :=
  let preprocessed := preprocessCode language code
  match backend preprocessed prompt with
  | .error e => .error ("LLM analysis failed: " ++ e)
  | .ok response =>
    match parseIssuesFromResponse response filePath with
    | .error e => .error ("failed to parse LLM response: " ++ e)
    | .ok issues =>
      .ok { language := language, issues := issues,
            summary := generateSummary issues,
            analysisMetadata := generateMetadata issues language elapsed }

/-- An MCP tool response: a success result with text content, or an RPC
error object. -/
inductive Resp where
  | result (text : String)
  | rpcError (code : Int) (message : String)
deriving DecidableEq

/-- The `code` argument as read by `args["code"].(string)`: `some` only
when present and a JSON string. -/
def codeArg (args : List (String × Json)) : Option String :=
  match args.lookup "code" with
  | some (.str s) => some s
  | _ => none

/-- An optional string argument with Go's zero-value default. -/
def strArg (args : List (String × Json)) (key : String) : String :=
  match args.lookup key with
  | some (.str s) => s
  | _ => ""

/-- The analyzer registry built in `NewMCPServer`. -/
def registeredAnalyzer (lang : String) : Bool :=
  lang == "java" || lang == "csharp" ||
    lang == "react_typescript" || lang == "react_javascript"

/-- The model of `handleAnalyzeSecurity`.  Besides the response it returns the number
of backend calls and of language-detector calls made, so that "no call
is made" is expressible; `prompts` is the per-language rule-prompt
catalogue (out of scope static data), `ord` the scores-map iteration
order. -/
def handleAnalyzeSecurity (prompts : String → String)
    (backend : String → String → Except String String)
    (elapsed : String) (ord : List String)
    (args : List (String × Json)) : Resp × Nat × Nat :=
  match codeArg args with
  | none => (.rpcError (-32602) "Missing or invalid 'code' parameter", 0, 0)
  | some code =>
    if code == "" then (.rpcError (-32602) "Missing or invalid 'code' parameter", 0, 0)
    else
      let filePath := strArg args "file_path"
      let languageStr := strArg args "language"
      let det : String × Nat :=
        if languageStr != "" && languageStr != "auto" then (languageStr, 0)
        else (detect ord code filePath, 1)
      let language := det.1
      if registeredAnalyzer language then
        match analyzeWithLLM backend language code filePath (prompts language) elapsed with
        | .error e => (.rpcError (-32603) ("Analysis failed: " ++ e), 1, det.2)
        | .ok result => (.result (formatAsMarkdown result), 1, det.2)
      else (.rpcError (-32602) ("Unsupported language: " ++ language), 0, det.2)

/-- The model of `models.HealthCheckResponse`. -/
structure HealthCheckResponse where
  status : String
  version : String
  llmServiceStatus : String
  supportedLanguages : List String
deriving DecidableEq

/-- JSON string escaping as done by Go's `encoding/json` (HTML escaping
of angle brackets and ampersand included). -/
def escJsonChar (c : Char) : String :=
  if c == '"' then "\\\""
  else if c == '\\' then "\\\\"
  else if c == '\n' then "\\n"
  else if c == '\r' then "\\r"
  else if c == '\t' then "\\t"
  else if c == '<' then "\\u003c"
  else if c == '>' then "\\u003e"
  else if c == '&' then "\\u0026"
  else if c.toNat < 32 then
    "\\u00" ++ String.mk [hexChar (c.toNat / 16), hexChar (c.toNat % 16)]
  else String.mk [c]
where
  hexChar (n : Nat) : Char := if n < 10 then Char.ofNat (48 + n) else Char.ofNat (87 + n)

/-- A JSON string literal. -/
def jsonQuote (s : String) : String :=
  "\"" ++ String.join (s.data.map escJsonChar) ++ "\""

/-- Go `json.MarshalIndent(healthResponse, "", "  ")` for the fixed struct
shape of `HealthCheckResponse`. -/
def marshalHealth (h : HealthCheckResponse) : String :=
  "\x7b\n  \"status\": " ++ jsonQuote h.status ++
  ",\n  \"version\": " ++ jsonQuote h.version ++
  ",\n  \"llm_service_status\": " ++ jsonQuote h.llmServiceStatus ++
  ",\n  \"supported_languages\": " ++
  (if h.supportedLanguages.isEmpty then "[]"
   else "[\n" ++
     String.intercalate ",\n" (h.supportedLanguages.map (fun l => "    " ++ jsonQuote l)) ++
     "\n  ]") ++
  "\n\x7d"

/-- The `HealthCheckResponse` value built by `handleHealthCheck`:
status is always "healthy", and the LLM status reports availability. -/
def healthResponseOf (llmHealthy : Bool) (langOrd : List String) : HealthCheckResponse :=
  { status := "healthy", version := "1.0.0",
    llmServiceStatus := if llmHealthy then "available" else "unavailable",
    supportedLanguages := langOrd }

/-- The model of `handleHealthCheck`.  The probe outcome is passed in as the pair
returned by `llmService.HealthCheck()`; the error component is discarded
exactly as the Go code does with `_`; `langOrd` is the iteration order
of the analyzers map. -/
def handleHealthCheck (llmHealthy : Bool) (_llmErr : Option String)
    (langOrd : List String) : Resp :=
  .result (marshalHealth (healthResponseOf llmHealthy langOrd))

/-- A concrete analysis result with no findings, used to evaluate the
empty-report rendering. -/
def emptyResultExample : AnalysisResult :=
  { language := "java", issues := [],
    summary := "No security issues detected.",
    analysisMetadata :=
      { analysisTime := "1s", issuesFound := 0, criticalCount := 0,
        highCount := 0, mediumCount := 0, lowCount := 0,
        detectedLanguage := "java" } }

/-- The characters of the opening fence written by a well-formed
fenced JSON block. -/
def fenceOpenL : List Char := [btick, btick, btick, 'j', 's', 'o', 'n', '\n']

/-- The characters of the closing fence. -/
def fenceCloseL : List Char := ['\n', btick, btick, btick]


theorem bumpSeverity_sum (m : AnalysisMetadata) (i : SecurityIssue) :
    (bumpSeverity m i).criticalCount + (bumpSeverity m i).highCount +
      (bumpSeverity m i).mediumCount + (bumpSeverity m i).lowCount
    = (m.criticalCount + m.highCount + m.mediumCount + m.lowCount) +
      (if knownSeverity i.severity then 1 else 0) := by
  simp only [bumpSeverity, knownSeverity]
  split_ifs <;> (try simp_all) <;> omega

theorem metadata_fold_sum (issues : List SecurityIssue) (m : AnalysisMetadata) :
    ((issues.foldl bumpSeverity m).criticalCount +
      (issues.foldl bumpSeverity m).highCount +
      (issues.foldl bumpSeverity m).mediumCount +
      (issues.foldl bumpSeverity m).lowCount)
    = (m.criticalCount + m.highCount + m.mediumCount + m.lowCount) +
      issues.countP (fun i => knownSeverity i.severity) := by
  induction issues generalizing m with
  | nil => simp
  | cons i t ih =>
    simp only [List.foldl_cons, List.countP_cons, ih, bumpSeverity_sum]
    split_ifs <;> omega

/-- C1 (amended): the four per-severity counts of `generateMetadata` sum
to the number of findings whose severity string is one of the four known
levels; in particular they sum to the findings length exactly when every
finding's severity is known. -/
theorem c1_metadata_counts_sum_known (issues : List SecurityIssue)
    (language elapsed : String) :
    (generateMetadata issues language elapsed).criticalCount +
      (generateMetadata issues language elapsed).highCount +
      (generateMetadata issues language elapsed).mediumCount +
      (generateMetadata issues language elapsed).lowCount
    = issues.countP (fun i => knownSeverity i.severity) := by
  unfold generateMetadata
  rw [metadata_fold_sum]
  simp

/-- C1 counterexample: a pipeline run (`analyzeWithLLM`) whose backend
reply decodes to one finding with the unknown severity string "WEIRD"
produces metadata whose four counts sum to 0 while the findings sequence
has length 1. -/
theorem c1_counterexample :
    (analyzeWithLLM (fun _ _ => .ok "[\x7b\"severity\": \"WEIRD\"\x7d]")
        "java" "x" "f" "p" "0s").map
      (fun r => (r.analysisMetadata.criticalCount + r.analysisMetadata.highCount +
        r.analysisMetadata.mediumCount + r.analysisMetadata.lowCount,
        r.issues.length))
      = .ok (0, 1) ∧ (0 : Nat) ≠ 1 :=
  ⟨rfl, by decide⟩

/-- C2: evaluation of `PreprocessCode` at the failing input.  Removing a
block comment that spans a line break deletes the newline inside it, so
the output has fewer newlines than the input, contradicting both the
claim and the function's own comment ("maintaining line structure");
languages without a comment rule do pass through unchanged. -/
theorem c2_block_comment_newline_loss :
    preprocessCode "java" "a/*\n*/b" = "ab" ∧
    newlineCount "a/*\n*/b" = 1 ∧
    newlineCount (preprocessCode "java" "a/*\n*/b") = 0 ∧
    preprocessCode "python" "a/*\n*/b" = "a/*\n*/b" :=
  ⟨rfl, rfl, rfl, rfl⟩

/-- C3: evaluation of `DetectFromContent` at a tie.  On the code body
"using System\npackage a;" the java and csharp scores tie at 1, and the
returned tag follows the scores-map iteration order, which Go
randomizes: the two possible orders give different tags. -/
theorem c3_tie_iteration_order :
    scoreOf "java" "using System\npackage a;"
      = scoreOf "csharp" "using System\npackage a;" ∧
    detectFromContent ["java", "csharp"] "using System\npackage a;" = "java" ∧
    detectFromContent ["csharp", "java"] "using System\npackage a;" = "csharp" := by
  refine ⟨?_, rfl, rfl⟩
  decide

/-- C8: for every probe outcome (healthy flag and discarded error), the
health_check handler returns a success result carrying the serialized
health status whose llm-service field describes backend availability; it
never returns an RPC error. -/
theorem c8_health_never_errors (llmHealthy : Bool) (llmErr : Option String)
    (langOrd : List String) :
    handleHealthCheck llmHealthy llmErr langOrd
      = Resp.result (marshalHealth (healthResponseOf llmHealthy langOrd)) ∧
    (∀ c m, handleHealthCheck llmHealthy llmErr langOrd ≠ Resp.rpcError c m) ∧
    (healthResponseOf llmHealthy langOrd).llmServiceStatus
      = (if llmHealthy then "available" else "unavailable") := by
  refine ⟨rfl, ?_, rfl⟩
  intro c m h
  simp [handleHealthCheck] at h

/-- C8 witness: the theorem applied at concrete probe outcomes. -/
theorem c8_witness :
    handleHealthCheck true none ["java"]
      = Resp.result (marshalHealth (healthResponseOf true ["java"])) ∧
    handleHealthCheck false (some "connection refused") []
      ≠ Resp.rpcError (-32603) "unreachable" :=
  ⟨(c8_health_never_errors true none ["java"]).1,
   (c8_health_never_errors false (some "connection refused") []).2.1 (-32603) "unreachable"⟩

/-- C9 (amended): for every result with an empty findings sequence, the
rendering is the fixed preamble (title, language, analysis time,
summary) followed by exactly the single line "No security issues
found."; in particular no per-severity section is appended. -/
theorem c9_empty_render (result : AnalysisResult) (h : result.issues = []) :
    formatAsMarkdown result
      = reportPreamble result ++ "No security issues found.\n" := by
  simp [formatAsMarkdown, h]

/-- C9 witness: the theorem applied to a concrete empty result. -/
theorem c9_witness :
    formatAsMarkdown emptyResultExample
      = reportPreamble emptyResultExample ++ "No security issues found.\n" :=
  c9_empty_render emptyResultExample rfl

/-- C9 counterexample: at a concrete empty result the whole rendering is
not the single line "No security issues found." (it begins with the
report title). -/
theorem c9_counterexample :
    emptyResultExample.issues = [] ∧
    formatAsMarkdown emptyResultExample ≠ "No security issues found." := by
  refine ⟨rfl, ?_⟩
  decide

theorem detectLoop_eq_or_pos (code : String) (ord : List String) (best : String) (maxS : Nat) :
    detectLoop code ord best maxS = best ∨
      scoreOf (detectLoop code ord best maxS) code > maxS := by
  induction ord generalizing best maxS with
  | nil => exact Or.inl rfl
  | cons l rest ih =>
    simp only [detectLoop]
    split_ifs with h
    · rcases ih l (scoreOf l code) with h1 | h1
      · right; rw [h1]; exact h
      · right; omega
    · exact ih best maxS

theorem detectLoop_stays (code : String) (ord : List String) (best : String)
    (h : ∀ l, scoreOf l code = 0) : detectLoop code ord best 0 = best := by
  induction ord with
  | nil => rfl
  | cons l rest ih => simp only [detectLoop, h l]; simpa using ih

/-- C5: if no language's signatures match the code body at all, the
content stage returns "unknown"; and, for every scores-map iteration
order, a language with a zero score is never the returned tag. -/
theorem c5_zero_score_never_wins (ord : List String) (code : String) :
    ((∀ l, scoreOf l code = 0) → detectFromContent ord code = "unknown") ∧
    (∀ l, l ≠ "unknown" → scoreOf l code = 0 → detectFromContent ord code ≠ l) := by
  constructor
  · intro h
    exact detectLoop_stays code ord "unknown" h
  · intro l hl hz heq
    rcases detectLoop_eq_or_pos code ord "unknown" 0 with h1 | h1
    · rw [detectFromContent] at heq
      rw [heq] at h1
      exact hl h1
    · rw [detectFromContent] at heq
      rw [heq] at h1
      omega

/-- C5 witness: the empty code body matches no signature and classifies
as "unknown"; a Java-only body is never classified as csharp (whose
score is zero there). -/
theorem c5_witness :
    detectFromContent ["java", "csharp", "react_typescript", "react_javascript"] ""
      = "unknown" ∧
    detectFromContent ["java", "csharp"] "package a;" ≠ "csharp" := by
  constructor
  · exact (c5_zero_score_never_wins _ "").1 (fun l => by
      simp only [scoreOf, patternsOf]
      split_ifs <;> decide)
  · exact (c5_zero_score_never_wins ["java", "csharp"] "package a;").2 "csharp"
      (by decide) (by decide)

/-- C4: for every path whose extension is in the fixed table and every
iteration order: an unambiguous extension (java, cs) with an empty code
body classifies as the mapped tag, and an ambiguous extension (tsx, ts,
jsx, js — the ones that trigger the content-agreement check) classifies
exactly as the content stage's verdict. -/
theorem c4_extension_stage (ord : List String) (code filePath : String)
    (h : detectFromExtension filePath ≠ "unknown") :
    (ambiguousExt filePath = false → detect ord "" filePath = detectFromExtension filePath) ∧
    (ambiguousExt filePath = true → detect ord code filePath = detectFromContent ord code) := by
  have hne : (filePath != "") = true := by
    rcases eq_or_ne filePath "" with he | he
    · subst he; exact absurd rfl h
    · simp [he]
  have hl : (detectFromExtension filePath != "unknown") = true := by simp [h]
  constructor
  · intro hamb
    simp only [ambiguousExt] at hamb
    simp only [detect, hne, hl, hamb, if_true, Bool.false_eq_true, if_false]
  · intro hamb
    simp only [ambiguousExt] at hamb
    simp only [detect, hne, hl, hamb, if_true]
    by_cases hc : (detectFromContent ord code == detectFromExtension filePath) = true
    · simp only [hc, if_true]
      exact (eq_of_beq hc).symm
    · simp only [Bool.not_eq_true] at hc
      simp only [hc, Bool.false_eq_true, if_false]

/-- C4 witness: the theorem applied at a java path with empty code and
at a ts path. -/
theorem c4_witness :
    detect ["java"] "" "Main.java" = "java" ∧
    detect ["react_typescript"] "let x = 1" "app.ts"
      = detectFromContent ["react_typescript"] "let x = 1" := by
  constructor
  · exact ((c4_extension_stage ["java"] "" "Main.java" (by decide)).1 (by decide)).trans
      (by decide)
  · exact (c4_extension_stage ["react_typescript"] "let x = 1" "app.ts" (by decide)).2
      (by decide)

/-- C6: when the `code` argument is absent, not a string, or empty, the
analyze_security handler answers with the invalid-parameter RPC error
(-32602) and makes no backend call and no language-detector call (the
two counters are zero); the model server holds no mutable state. -/
theorem c6_invalid_code_param (prompts : String → String)
    (backend : String → String → Except String String)
    (elapsed : String) (ord : List String) (args : List (String × Json))
    (h : codeArg args = none ∨ codeArg args = some "") :
    handleAnalyzeSecurity prompts backend elapsed ord args
      = (.rpcError (-32602) "Missing or invalid 'code' parameter", 0, 0) := by
  rcases h with h | h <;> simp [handleAnalyzeSecurity, h]

/-- C6 witness: the theorem applied to an empty-string code argument. -/
theorem c6_witness :
    handleAnalyzeSecurity (fun _ => "p") (fun _ _ => .ok "[]") "0s" ["java"]
        [("code", Json.str "")]
      = (.rpcError (-32602) "Missing or invalid 'code' parameter", 0, 0) :=
  c6_invalid_code_param _ _ _ _ _ (Or.inr rfl)

theorem wrapper_fold_skip (fields : List (String × Json)) (l : List SecurityIssue)
    (h : ∀ kv ∈ fields, lowerKey kv.1 ≠ "issues") :
    fields.foldl wrapperStep (.ok l) = .ok l := by
  induction fields generalizing l with
  | nil => rfl
  | cons kv rest ih =>
    have hk : (lowerKey kv.1 == "issues") = false := by
      simpa using h kv (List.mem_cons_self _ _)
    simp only [List.foldl_cons, wrapperStep, hk, Bool.false_eq_true, if_false]
    exact ih l (fun kv2 hm => h kv2 (List.mem_cons_of_mem _ hm))

/-- C10: when the extracted text of a backend reply parses as a JSON
object with no `issues` member, `parseIssuesFromResponse` succeeds with
the empty findings list (the array decode fails, the wrapper decode
succeeds with the field absent) rather than failing. -/
theorem c10_object_without_issues (response filePath : String)
    (fields : List (String × Json))
    (hparse : parseJson (extractJSON response) = some (Json.obj fields))
    (hkeys : ∀ kv ∈ fields, lowerKey kv.1 ≠ "issues") :
    parseIssuesFromResponse response filePath = .ok [] := by
  have hw : unmarshalWrapper (.obj fields) = .ok [] :=
    wrapper_fold_skip fields [] hkeys
  simp [parseIssuesFromResponse, unmarshalIssuesText, unmarshalWrapperText,
    hparse, unmarshalIssueList, hw, enrichIssues]

/-- C10 witness: the theorem applied to a concrete reply whose extracted
text is an object without an issues member. -/
theorem c10_witness :
    parseIssuesFromResponse "The result: \x7b\"foo\": 1\x7d" "f.java" = .ok [] :=
  c10_object_without_issues _ _ [("foo", Json.num 1)] (by rfl) (by decide)

theorem afterTriple_of_not_hasFence {l : List Char} (h : hasFence l = false) :
    afterTriple l = none := by
  cases ha : afterTriple l with
  | none => rfl
  | some x => simp [hasFence, ha] at h

theorem hasFence_cons_split {c : Char} {l : List Char} (h : hasFence (c :: l) = false) :
    startsFence (c :: l) = false ∧ hasFence l = false := by
  by_cases hs : startsFence (c :: l) = true
  · exfalso
    simp only [hasFence, afterTriple, hs, if_true, Option.isSome_some] at h
    exact Bool.noConfusion h
  · have hs' : startsFence (c :: l) = false := by simpa using hs
    refine ⟨hs', ?_⟩
    simpa only [hasFence, afterTriple, hs', Bool.false_eq_true, if_false] using h

theorem startsFence_stub (c : Char) (xs ys : List Char) :
    startsFence (c :: (xs ++ btick :: btick :: btick :: ys))
      = startsFence (c :: (xs ++ [btick, btick])) := by
  match xs with
  | [] => simp [startsFence]
  | [x] => simp [startsFence]
  | x :: y :: rest => simp [startsFence]

theorem untilTriple_append (xs ys : List Char)
    (h : hasFence (xs ++ [btick, btick]) = false) :
    untilTriple (xs ++ btick :: btick :: btick :: ys) = some xs := by
  induction xs with
  | nil =>
    simp only [List.nil_append, untilTriple]
    simp [startsFence]
  | cons c xs' ih =>
    have hsp := hasFence_cons_split (c := c) (l := xs' ++ [btick, btick]) (by simpa using h)
    have hs : startsFence (c :: (xs' ++ btick :: btick :: btick :: ys)) = false := by
      rw [startsFence_stub]; exact hsp.1
    simp only [List.cons_append, untilTriple, List.append_eq, hs, Bool.false_eq_true,
      if_false]
    rw [ih hsp.2]
    rfl

theorem afterTriple_append_none (l2 : List Char)
    (h2 : afterTriple l2 = none) (hh : ∀ d ∈ l2.take 1, d ≠ btick) :
    ∀ l1, afterTriple l1 = none → afterTriple (l1 ++ l2) = none := by
  intro l1
  induction l1 with
  | nil => intro _; simpa using h2
  | cons c l1' ih =>
    intro h1
    have hf : hasFence (c :: l1') = false := by simp [hasFence, h1]
    have hsp := hasFence_cons_split hf
    have hl1' : afterTriple l1' = none := afterTriple_of_not_hasFence hsp.2
    rcases hl2 : l2 with _ | ⟨d, l2'⟩
    · subst hl2; simpa using h1
    · subst hl2
      have hd : (d == btick) = false := by
        have := hh d (by simp)
        simpa using this
      have hs2 : startsFence (c :: (l1' ++ d :: l2')) = false := by
        rcases l1' with _ | ⟨x, l1''⟩
        · rcases l2' with _ | ⟨e, l2''⟩
          · simp [startsFence]
          · simp [startsFence, hd]
        · rcases l1'' with _ | ⟨y, l1'''⟩
          · simp [startsFence, hd]
          · have hx : startsFence (c :: x :: y :: l1''') = false := hsp.1
            simpa [startsFence] using hx
      rw [List.cons_append]
      simp only [afterTriple, hs2, Bool.false_eq_true, if_false]
      exact ih hl1'

theorem jsonScan_append_skip (p1 : List Char) (l : List Char)
    (h : ∀ c ∈ p1, c ≠ '[' ∧ c ≠ lbraceC) :
    jsonScan (p1 ++ l) = jsonScan l := by
  induction p1 with
  | nil => rfl
  | cons c p1' ih =>
    have hc := h c (by simp)
    have h1 : (c == '[') = false := by simpa using hc.1
    have h2 : (c == lbraceC) = false := by simpa using hc.2
    simp only [List.cons_append, jsonScan, h1, h2, Bool.false_eq_true, if_false]
    exact ih (fun d hd => h d (by simp [hd]))

theorem dropWhile_append_of_all {p : Char → Bool} {xs : List Char} (ys : List Char)
    (h : ∀ x ∈ xs, p x = true) :
    (xs ++ ys).dropWhile p = ys.dropWhile p := by
  induction xs with
  | nil => rfl
  | cons x xs' ih =>
    simp only [List.cons_append, List.dropWhile_cons, h x (by simp), if_true]
    exact ih (fun d hd => h d (by simp [hd]))

theorem takeToLast_append_last (ch : Char) (l p : List Char) (hp : ch ∉ p) :
    takeToLast ch (l ++ ch :: p) = some l := by
  unfold takeToLast
  have hrev : (l ++ ch :: p).reverse = p.reverse ++ ch :: l.reverse := by
    simp [List.reverse_append]
  rw [hrev]
  rw [dropWhile_append_of_all (ch :: l.reverse)
    (fun x hx => by
      have : x ≠ ch := by
        intro he; exact hp (by simpa [he] using (List.mem_reverse.mp hx))
      simpa using this)]
  simp only [List.dropWhile_cons]
  simp

theorem trimSpaceL_bracketed (mid : List Char) :
    trimSpaceL ('[' :: (mid ++ [']'])) = '[' :: (mid ++ [']']) := by
  have h1 : trimWs '[' = false := rfl
  have h2 : trimWs ']' = false := rfl
  have hrev : ('[' :: (mid ++ [']'])).reverse = ']' :: (mid.reverse ++ ['[']) := by
    simp [List.reverse_append]
  simp only [trimSpaceL, List.dropWhile_cons, h1, Bool.false_eq_true, if_false, hrev,
    h2]
  have hrev2 : (']' :: (mid.reverse ++ ['['])).reverse = '[' :: (mid ++ [']']) := by
    simp [List.reverse_append]
  rw [hrev2]

theorem trimSpaceL_bracketed_nl (mid : List Char) :
    trimSpaceL (('[' :: (mid ++ [']'])) ++ ['\n']) = '[' :: (mid ++ [']']) := by
  have h1 : trimWs '[' = false := rfl
  have h2 : trimWs ']' = false := rfl
  have h3 : trimWs '\n' = true := rfl
  have hrev : ('[' :: (mid ++ [']'] ++ ['\n'])).reverse
      = '\n' :: ']' :: (mid.reverse ++ ['[']) := by
    simp [List.reverse_append]
  simp only [trimSpaceL, List.cons_append, List.dropWhile_cons, h1, Bool.false_eq_true,
    if_false, hrev, h3, if_true, h2]
  simp [List.reverse_append]

/-- C7 (amended): let A be a trimmed JSON array text, written as the
character list `'[' :: mid ++ [']']`, containing no triple-backtick
fence.  Then `extractJSON` returns exactly A on each of the three
inputs — A itself, A wrapped in a fenced json block, and A embedded in
prose that contains no fence, no bracket or brace before A, and no `]`
after A — so all three decode to the same structured array. -/
theorem c7_extract_three_forms (mid p1 p2 : List Char)
    (hA : hasFence ('[' :: (mid ++ [']'])) = false)
    (hT : hasFence (p1 ++ ('[' :: (mid ++ [']'])) ++ p2) = false)
    (hp1 : ∀ c ∈ p1, c ≠ '[' ∧ c ≠ lbraceC)
    (hp2 : ']' ∉ p2) :
    extractJSON (String.mk ('[' :: (mid ++ [']']))) = String.mk ('[' :: (mid ++ [']'])) ∧
    extractJSON (String.mk (fenceOpenL ++ ('[' :: (mid ++ [']'])) ++ fenceCloseL))
      = String.mk ('[' :: (mid ++ [']'])) ∧
    extractJSON (String.mk (p1 ++ ('[' :: (mid ++ [']'])) ++ p2))
      = String.mk ('[' :: (mid ++ [']'])) := by
  have hAnone : afterTriple ('[' :: (mid ++ [']'])) = none :=
    afterTriple_of_not_hasFence hA
  have htlA : takeToLast ']' (mid ++ [']']) = some mid := by
    have := takeToLast_append_last ']' mid [] (by simp)
    simpa using this
  have hscanA : jsonScan ('[' :: (mid ++ [']'])) = some ('[' :: (mid ++ [']'])) := by
    simp only [jsonScan, beq_self_eq_true, if_true, htlA]
  refine ⟨?_, ?_, ?_⟩
  · have hcb : codeBlockGroup ('[' :: (mid ++ [']'])) = none := by
      simp only [codeBlockGroup, hAnone]
    have listA : extractJSONL ('[' :: (mid ++ [']'])) = '[' :: (mid ++ [']']) := by
      simp only [extractJSONL, hcb, hscanA, trimSpaceL_bracketed]
    exact congrArg String.mk listA
  · have h1 : afterTriple (('[' :: (mid ++ [']'])) ++ ['\n', btick, btick]) = none := by
      refine afterTriple_append_none ['\n', btick, btick] rfl ?_ _ hAnone
      intro d hd
      simp at hd
      subst hd
      decide
    have h1' : hasFence ((('[' :: (mid ++ [']'])) ++ ['\n']) ++ [btick, btick]) = false := by
      have h1c := h1
      simp only [List.append_assoc, List.cons_append, List.nil_append] at h1c
      simp only [List.append_assoc, List.cons_append, List.nil_append, hasFence, h1c]
      rfl
    have hu := untilTriple_append (('[' :: (mid ++ [']'])) ++ ['\n']) [] h1'
    have hcbF : codeBlockGroup (fenceOpenL ++ ('[' :: (mid ++ [']'])) ++ fenceCloseL)
        = some (('[' :: (mid ++ [']'])) ++ ['\n']) := by
      have huc := hu
      simp only [List.append_assoc, List.cons_append, List.nil_append] at huc
      simp only [fenceOpenL, fenceCloseL, List.append_assoc, List.cons_append,
        List.nil_append]
      simp only [codeBlockGroup, afterTriple, startsFence, beq_self_eq_true,
        Bool.and_self, if_true, List.drop_succ_cons, List.drop_zero, dropJsonTag]
      simp only [List.dropWhile_cons, show rws '\n' = true from rfl, if_true,
        show rws '[' = false from rfl, Bool.false_eq_true, if_false]
      exact huc
    have listF : extractJSONL (fenceOpenL ++ ('[' :: (mid ++ [']'])) ++ fenceCloseL)
        = '[' :: (mid ++ [']']) := by
      simp only [extractJSONL, hcbF, trimSpaceL_bracketed_nl]
    exact congrArg String.mk listF
  · have hTnone : afterTriple (p1 ++ ('[' :: (mid ++ [']'])) ++ p2) = none :=
      afterTriple_of_not_hasFence hT
    have hcbT : codeBlockGroup (p1 ++ ('[' :: (mid ++ [']'])) ++ p2) = none := by
      simp only [codeBlockGroup, hTnone]
    have htl : takeToLast ']' (mid ++ ']' :: p2) = some mid :=
      takeToLast_append_last ']' mid p2 hp2
    have hscanT : jsonScan (p1 ++ ('[' :: (mid ++ [']'])) ++ p2)
        = some ('[' :: (mid ++ [']'])) := by
      rw [List.append_assoc, jsonScan_append_skip p1 _ hp1]
      simp only [List.cons_append, List.append_assoc, List.nil_append]
      simp only [jsonScan, beq_self_eq_true, if_true, htl]
    have listT : extractJSONL (p1 ++ ('[' :: (mid ++ [']'])) ++ p2)
        = '[' :: (mid ++ [']']) := by
      simp only [extractJSONL, hcbT, hscanT, trimSpaceL_bracketed]
    exact congrArg String.mk listT

/-- C7 witness: the theorem applied at the array text "[1, 2]" with
benign prose. -/
theorem c7_witness :
    extractJSON "[1, 2]" = "[1, 2]" ∧
    extractJSON "```json\n[1, 2]\n```" = "[1, 2]" ∧
    extractJSON "Here: [1, 2] ok." = "[1, 2]" := by
  have h := c7_extract_three_forms ("1, 2".data) ("Here: ".data) (" ok.".data)
    (by decide) (by decide) (by decide) (by decide)
  exact ⟨h.1, h.2.1, h.2.2⟩

/-- C7 counterexample: the claim as stated fails.  With trailing prose
containing a later `]` (allowed by the claim, which only constrains
earlier brackets), the bracket scan extracts through the last `]` and
the result no longer parses, unlike the raw array; and an array whose
string content contains backtick fences is hijacked by the code-block
branch on the raw input itself. -/
theorem c7_counterexample :
    parseJson (extractJSON "[1]") = some (Json.arr [Json.num 1]) ∧
    extractJSON "Result: [1] done]" = "[1] done]" ∧
    parseJson (extractJSON "Result: [1] done]") = none ∧
    parseJson "[\"``````\"]" = some (Json.arr [Json.str "``````"]) ∧
    extractJSON "[\"``````\"]" = "" ∧
    parseJson (extractJSON "[\"``````\"]") = none :=
  ⟨rfl, rfl, rfl, rfl, rfl, rfl⟩
